import Mathlib

/-!
Shallow embedding of `electrum/gui/qml/qechannellistmodel.py` (class
`QEChannelListModel`), the QML list-model adapter for a wallet's Lightning
channels, together with proofs about the claims of the specification.

Modelling conventions:
* A Python row dict is an association list `Row = List (String × Value)` in
  insertion order; `Value` covers the value shapes the adapter stores
  (str, int, bool, QEAmount).
* Code that can raise a Python exception is embedded in `Except String`;
  `.error` marks the raised exception, `.ok` the normal return.
* Qt change notifications (begin/end insert/remove/reset, dataChanged,
  pyqtSignal emissions) are collected in a `List Signal`; logger calls are
  collected in a `List String` (the text of a log message is modelled only
  loosely where it interpolates an object repr; no claim depends on it).
* The domain collaborators (`Channel`, `Lnworker`, the wallet) live outside
  this file's source; they are modelled as records of exactly the accessors
  the adapter calls, with `bytes.hex()` results represented as the hex
  string itself.
* Python `list.sort(key=...)` is a stable sort; `List.insertionSort` is also
  stable, and a stable sort's output is uniquely determined by the key
  function, so the two agree extensionally.
-/

/-- Model of `qetypes.QEAmount` as far as this adapter uses it: a container
constructed either empty (`QEAmount()`), from sats, or from msats. -/
structure QEAmount where
  amount_sat : Int
  amount_msat : Int
  deriving DecidableEq, Repr

def QEAmount.mkSat (s : Int) : QEAmount := { amount_sat := s, amount_msat := 0 }

def QEAmount.mkMsat (m : Int) : QEAmount := { amount_sat := 0, amount_msat := m }

/-- `QEAmount()` with no arguments: the empty (zero) amount. -/
def QEAmount.mkEmpty : QEAmount := { amount_sat := 0, amount_msat := 0 }

/-- The value shapes stored in a row dict by `channel_to_model`. -/
inductive Value where
  | str (s : String)
  | int (n : Int)
  | bool (b : Bool)
  | amount (a : QEAmount)
  deriving DecidableEq, Repr

/-- A Python dict used as a model row: association list in insertion order. -/
abbrev Row := List (String × Value)

/-- `electrum.lnutil.LOCAL` / `REMOTE` (the HTLC owner constants). -/
inductive HTLCOwner where
  | LOCAL
  | REMOTE
  deriving DecidableEq, Repr

/-- The domain channel object, as a record of exactly the accessors
`QEChannelListModel` calls on it.  `channel_id` and `node_id` stand for the
hex strings `lnc.channel_id.hex()` / `lnc.node_id.hex()`. -/
structure Channel where
  channel_id : String
  node_id : String
  short_id_for_GUI : String
  get_state_for_GUI : String
  get_state : Int
  is_backup : Bool
  is_imported : Bool
  get_capacity : Int
  available_to_spend : HTLCOwner → Int
  balance : HTLCOwner → Int

/-- The wallet's Lightning engine (`wallet.lnworker`), as a record of the
accessors the adapter calls.  `get_channel_objects` and `channels` are the
value sequences of the corresponding dicts, in iteration order. -/
structure Lnworker where
  get_node_alias : String → Option String
  is_trampoline_peer : String → Bool
  get_channel_objects : List Channel
  channels : List Channel

/-- The wallet as seen by the adapter: `wallet.lnworker` may be `None`. -/
structure Wallet where
  lnworker : Option Lnworker

/-- Qt-side change notifications emitted by the adapter. -/
inductive Signal where
  | modelReset
  | rowsInserted (first last : Int)
  | rowsRemoved (first last : Int)
  | dataChanged (row : Nat)
  | countChanged
  | numOpenChannelsChanged
  deriving DecidableEq, Repr

/-- `_ROLE_NAMES` from the source, in order. -/
def ROLE_NAMES : List String :=
  ["cid", "state", "state_code", "initiator", "capacity", "can_send",
   "can_receive", "l_csv_delay", "r_csv_delay", "send_frozen", "receive_frozen",
   "type", "node_id", "node_alias", "short_cid", "funding_tx", "is_trampoline",
   "is_backup", "is_imported", "local_capacity", "remote_capacity"]

/-- `Qt.UserRole`: the role keys are `UserRole, UserRole+1, ...` over
`ROLE_NAMES`. -/
def Qt_UserRole : Int := 256

/-- `ChannelState.OPEN`.  Modelled from the spec: the numeric "open" state
constant lives in `electrum.lnchannel`, outside this file's source; no claim
depends on its concrete value. -/
def ChannelState_OPEN : Int := 3

/-- `d[k]` on a Python dict: the value, or a raised `KeyError`. -/
def dictGet (d : Row) (k : String) : Except String Value :=
  match List.lookup k d with
  | some v => Except.ok v
  | none => Except.error ("KeyError: " ++ k)

/-- `old.update(upd)` on Python dicts: keys present in `old` keep their
position and take the value from `upd` when `upd` has that key; keys of
`upd` absent from `old` are appended in `upd`'s order. -/
def dictUpdate (old upd : Row) : Row :=
  old.map (fun kv =>
    match List.lookup kv.1 upd with
    | some v => (kv.1, v)
    | none => kv)
  ++ upd.filter (fun kv => (List.lookup kv.1 old).isNone)

/-- Python sequence indexing `l[i]` with negative-index wraparound:
`some` of the resolved position, or `none` for a raised `IndexError`. -/
def pyIndex (len : Nat) (i : Int) : Option Nat :=
  if 0 ≤ i then
    if i < (len : Int) then some i.toNat else none
  else
    if 0 ≤ i + (len : Int) then some (i + (len : Int)).toNat else none

/-- Python `l[i]` on a list: the element, or `none` for `IndexError`. -/
def pyListGet {α : Type} (l : List α) (i : Int) : Option α :=
  match pyIndex l.length i with
  | some j => l[j]?
  | none => none

/-- `channel_to_model(lnc)`: builds the row dict for one channel, in the
source's key insertion order.  The backup branch stores empty amounts and the
domain `is_imported` flag; the other branch stores live amounts and
`is_imported = False`. -/
def channel_to_model (lnworker : Lnworker) (lnc : Channel) : Row :=
  [("cid", Value.str lnc.channel_id),
   ("node_id", Value.str lnc.node_id),
   ("node_alias", Value.str ((lnworker.get_node_alias lnc.node_id).getD "")),
   ("short_cid", Value.str lnc.short_id_for_GUI),
   ("state", Value.str lnc.get_state_for_GUI),
   ("state_code", Value.int lnc.get_state),
   ("is_backup", Value.bool lnc.is_backup),
   ("is_trampoline", Value.bool (lnworker.is_trampoline_peer lnc.node_id)),
   ("capacity", Value.amount (QEAmount.mkSat lnc.get_capacity))]
  ++ (if lnc.is_backup then
        [("can_send", Value.amount QEAmount.mkEmpty),
         ("can_receive", Value.amount QEAmount.mkEmpty),
         ("local_capacity", Value.amount QEAmount.mkEmpty),
         ("remote_capacity", Value.amount QEAmount.mkEmpty),
         ("is_imported", Value.bool lnc.is_imported)]
      else
        [("can_send", Value.amount (QEAmount.mkMsat (lnc.available_to_spend HTLCOwner.LOCAL))),
         ("can_receive", Value.amount (QEAmount.mkMsat (lnc.available_to_spend HTLCOwner.REMOTE))),
         ("local_capacity", Value.amount (QEAmount.mkMsat (lnc.balance HTLCOwner.LOCAL))),
         ("remote_capacity", Value.amount (QEAmount.mkMsat (lnc.balance HTLCOwner.REMOTE))),
         ("is_imported", Value.bool false)])

/-- The key sequence every `channel_to_model` row carries (both branches set
the same five trailing keys). -/
def MODEL_KEYS : List String :=
  ["cid", "node_id", "node_alias", "short_cid", "state", "state_code",
   "is_backup", "is_trampoline", "capacity", "can_send", "can_receive",
   "local_capacity", "remote_capacity", "is_imported"]

/-- `rowCount` / the `count` property: `len(self.channels)`. -/
def rowCount (channels : List Row) : Nat := channels.length

/-- `data(index, role)`: fetch the row (Python list indexing), resolve the
role name (Python tuple indexing on `role - Qt.UserRole`), then look the name
up in the row dict.  `none` marks a raised IndexError/KeyError.  The value
conversions at the end of the source method are identities on the value
shapes `Value` covers (`bool`/`int`/`str`/`QEAmount` are returned as-is). -/
def data (channels : List Row) (row : Int) (role : Int) : Option Value :=
  match pyListGet channels row with
  | none => none
  | some tx =>
    match pyListGet ROLE_NAMES (role - Qt_UserRole) with
    | none => none
    | some name => List.lookup name tx

/-- The per-row value whose sum is `numOpenChannels`: `1 if
x['state_code'] == ChannelState.OPEN else 0`, with the dict access able to
raise. -/
def open_flags : List Row → Except String (List Nat)
  | [] => Except.ok []
  | x :: rest =>
    match dictGet x "state_code" with
    | Except.error e => Except.error e
    | Except.ok v =>
      match open_flags rest with
      | Except.error e => Except.error e
      | Except.ok frest =>
        Except.ok ((if v = Value.int ChannelState_OPEN then 1 else 0) :: frest)

/-- `numOpenChannels` property: `sum([1 if x['state_code'] ==
ChannelState.OPEN else 0 for x in self.channels])`. -/
def numOpenChannels (channels : List Row) : Except String Nat :=
  match open_flags channels with
  | Except.error e => Except.error e
  | Except.ok fl => Except.ok fl.sum

/-- `chan_sort_score(c)` from `init_model`: `c['state_code'] + (10 if
c['is_backup'] else 0)`.  Rows built by `channel_to_model` always store an
int `state_code` and a bool `is_backup`; any other shape would raise in
Python and is mapped to `.error`. -/
def chan_sort_score (c : Row) : Except String Int :=
  match dictGet c "state_code" with
  | Except.error e => Except.error e
  | Except.ok s =>
    match dictGet c "is_backup" with
    | Except.error e => Except.error e
    | Except.ok b =>
      match s, b with
      | Value.int n, Value.bool bb => Except.ok (n + if bb then 10 else 0)
      | _, _ => Except.error "TypeError: bad row value shapes"

/-- The sort keys of all rows, evaluated left to right as `list.sort(key=..)`
does; the first raised exception propagates. -/
def scores_of : List Row → Except String (List Int)
  | [] => Except.ok []
  | c :: rest =>
    match chan_sort_score c with
    | Except.error e => Except.error e
    | Except.ok s =>
      match scores_of rest with
      | Except.error e => Except.error e
      | Except.ok srest => Except.ok (s :: srest)

/-- Total version of the sort key, used as the comparison after `scores_of`
has checked that no key computation raises (the default is never reached on
the rows `init_model` sorts). -/
def chan_sort_key (c : Row) : Int :=
  match chan_sort_score c with
  | Except.ok s => s
  | Except.error _ => 0

/-- The sorting relation of `channels.sort(key=chan_sort_score)`. -/
def score_le (a b : Row) : Prop := chan_sort_key a ≤ chan_sort_key b

instance : DecidableRel score_le :=
  fun a b => inferInstanceAs (Decidable (chan_sort_key a ≤ chan_sort_key b))

instance : IsTotal Row score_le :=
  ⟨fun a b => Int.le_total (chan_sort_key a) (chan_sort_key b)⟩

instance : IsTrans Row score_le :=
  ⟨fun _ _ _ h h' => Int.le_trans h h'⟩

/-- `init_model()`: warn-and-return when the wallet has no lnworker;
otherwise map every channel object to a row, sort by `chan_sort_score`
(stable, as Python's sort), replace the list, and emit a model reset
(`clear`), a rows-inserted range and `countChanged`. -/
def init_model (wallet : Wallet) (channels0 : List Row) :
    Except String (List Row × List Signal × List String) :=
  match wallet.lnworker with
  | none => Except.ok (channels0, [], ["init_model", "lnworker should be defined"])
  | some lnworker =>
    let channels := lnworker.get_channel_objects.map (channel_to_model lnworker)
    match scores_of channels with
    | Except.error e => Except.error e
    | Except.ok _ =>
      let sorted := List.insertionSort score_le channels
      Except.ok (sorted,
        [Signal.modelReset,
         Signal.rowsInserted 0 ((sorted.length : Int) - 1),
         Signal.countChanged],
        ["init_model"])

/-- The scan shared by `on_channel_updated` and `remove_channel`: walk the
row list comparing `c['cid']` with the given hex cid; first match wins,
`c['cid']` may raise `KeyError` on a malformed row. -/
def find_cid_row (channels : List Row) (cid : String) :
    Except String (Option (Nat × Row)) :=
  match channels with
  | [] => Except.ok none
  | c :: rest =>
    match dictGet c "cid" with
    | Except.error e => Except.error e
    | Except.ok v =>
      if v = Value.str cid then Except.ok (some (0, c))
      else
        match find_cid_row rest cid with
        | Except.error e => Except.error e
        | Except.ok none => Except.ok none
        | Except.ok (some (i, row)) => Except.ok (some (i + 1, row))

/-- `do_update(modelindex, channel)`: recompute the row dict and merge it
into the existing row via `dict.update`, then emit `dataChanged` on that row
and `numOpenChannelsChanged`.  `channel_to_model` dereferences
`wallet.lnworker`, which raises when the engine is missing. -/
def do_update (wallet : Wallet) (channels : List Row) (modelindex : Nat)
    (channel : Channel) : Except String (List Row × List Signal × List String) :=
  match wallet.lnworker with
  | none => Except.error "AttributeError: NoneType has no channel accessors"
  | some lnworker =>
    match channels[modelindex]? with
    | none => Except.error "IndexError: list index out of range"
    | some modelitem =>
      let newitem := dictUpdate modelitem (channel_to_model lnworker channel)
      Except.ok (channels.set modelindex newitem,
        [Signal.dataChanged modelindex, Signal.numOpenChannelsChanged],
        ["updating our channel " ++ channel.short_id_for_GUI])

/-- `on_channel_updated(channel)`: find the row whose cid matches and update
it in place; silently do nothing when no row matches. -/
def on_channel_updated (wallet : Wallet) (channels : List Row)
    (channel : Channel) : Except String (List Row × List Signal × List String) :=
  match find_cid_row channels channel.channel_id with
  | Except.error e => Except.error e
  | Except.ok (some (i, _)) => do_update wallet channels i channel
  | Except.ok none => Except.ok (channels, [], [])

/-- `new_channel(cid)`: scan `wallet.lnworker.channels` (raising when the
engine is missing) for the channel with the given cid; on a match prepend
its row and emit rows-inserted plus `countChanged`; otherwise fall through
with only the entry debug log.  The `self._logger.debug(item)` line is
modelled as the constant log text "item". -/
def new_channel (wallet : Wallet) (channels : List Row) (cid : String) :
    Except String (List Row × List Signal × List String) :=
  match wallet.lnworker with
  | none => Except.error "AttributeError: NoneType has no attribute channels"
  | some lnworker =>
    match lnworker.channels.find? (fun channel => cid == channel.channel_id) with
    | some channel =>
      let item := channel_to_model lnworker channel
      Except.ok (item :: channels,
        [Signal.rowsInserted 0 0, Signal.countChanged],
        ["new channel with cid " ++ cid, "item"])
    | none => Except.ok (channels, [], ["new channel with cid " ++ cid])

/-- `remove_channel(cid)`: find the first row whose cid matches, remove it
with Python `list.remove` (first `==` element) and emit rows-removed plus
`countChanged`; otherwise fall through with only the entry debug log. -/
def remove_channel (channels : List Row) (cid : String) :
    Except String (List Row × List Signal × List String) :=
  match find_cid_row channels cid with
  | Except.error e => Except.error e
  | Except.ok (some (i, channel)) =>
    Except.ok (channels.erase channel,
      [Signal.rowsRemoved i i, Signal.countChanged],
      ["remove channel with cid " ++ cid, cid])
  | Except.ok none => Except.ok (channels, [], ["remove channel with cid " ++ cid])

/-- Model of a constructed `QEFilterProxyModel`: the role key and match
value it was configured with. -/
structure QEFilterProxyModel where
  filterRole : Int
  filterValue : Value
  deriving DecidableEq, Repr

/-- `filterModel(role, match)`: `assert role in self._ROLE_RMAP` (a raised
`AssertionError` on an undeclared role name), then configure a proxy with
the role's key. -/
def filterModel (role : String) (matchValue : Value) :
    Except String QEFilterProxyModel :=
  match List.indexOf? role ROLE_NAMES with
  | some i => Except.ok { filterRole := Qt_UserRole + i, filterValue := matchValue }
  | none => Except.error "AssertionError"

/-- `filterModelBackups()`. -/
def filterModelBackups : Except String QEFilterProxyModel :=
  filterModel "is_backup" (Value.bool true)

/-- `filterModelNoBackups()`. -/
def filterModelNoBackups : Except String QEFilterProxyModel :=
  filterModel "is_backup" (Value.bool false)

/-! ### Derived read-back of rows, well-formedness, and the step relations -/

/-- The state code stored in a row, as the sort key and the open-count read
it (the default is unreachable for adapter-built rows, where Python would
instead raise). -/
def rowStateCode (r : Row) : Int :=
  match List.lookup "state_code" r with
  | some (Value.int n) => n
  | _ => 0

/-- The backup flag stored in a row (default unreachable likewise). -/
def rowIsBackup (r : Row) : Bool :=
  match List.lookup "is_backup" r with
  | some (Value.bool b) => b
  | _ => false

/-- The cid stored in a row, `none` when the key is absent. -/
def rowCid (r : Row) : Option Value := List.lookup "cid" r

/-- The cids of all rows, in row order. -/
def cidsOf (st : List Row) : List (Option Value) := st.map rowCid

/-- Every row carries exactly the key sequence `channel_to_model` writes.
This holds for every reachable adapter state. -/
def RowsWF (st : List Row) : Prop := ∀ r ∈ st, r.map Prod.fst = MODEL_KEYS

/-- The domain channel dicts are keyed by channel id, so the ids of their
value sequences are pairwise distinct. -/
def LnworkerWF (lnw : Lnworker) : Prop :=
  (lnw.get_channel_objects.map Channel.channel_id).Nodup ∧
  (lnw.channels.map Channel.channel_id).Nodup

/-- `LnworkerWF` for the engine, if any. -/
def WalletWF (w : Wallet) : Prop :=
  match w.lnworker with
  | none => True
  | some lnw => LnworkerWF lnw

/-- One externally-triggered adapter mutation that completed normally. -/
inductive AStep (w : Wallet) : List Row → List Row → Prop where
  | rebuild {st st' sigs logs} :
      init_model w st = Except.ok (st', sigs, logs) → AStep w st st'
  | update {st st' sigs logs ch} :
      on_channel_updated w st ch = Except.ok (st', sigs, logs) → AStep w st st'
  | insert {st st' sigs logs cid} :
      new_channel w st cid = Except.ok (st', sigs, logs) → AStep w st st'
  | removeRow {st st' sigs logs cid} :
      remove_channel st cid = Except.ok (st', sigs, logs) → AStep w st st'

/-- Adapter states reachable from the initial empty row list. -/
def Reachable (w : Wallet) (st : List Row) : Prop :=
  Relation.ReflTransGen (AStep w) [] st

/-- `AStep` with inserts restricted to cids not already among the rows (the
restriction the counterexample to claim C3 forces). -/
inductive UStep (w : Wallet) : List Row → List Row → Prop where
  | rebuild {st st' sigs logs} :
      init_model w st = Except.ok (st', sigs, logs) → UStep w st st'
  | update {st st' sigs logs ch} :
      on_channel_updated w st ch = Except.ok (st', sigs, logs) → UStep w st st'
  | insert {st st' sigs logs cid} :
      some (Value.str cid) ∉ cidsOf st →
      new_channel w st cid = Except.ok (st', sigs, logs) → UStep w st st'
  | removeRow {st st' sigs logs cid} :
      remove_channel st cid = Except.ok (st', sigs, logs) → UStep w st st'

/-- The order claim C4 asserts for the rebuilt list: ascending
lexicographically by (state code, backup flag). -/
def C4ClaimOrder (a b : Row) : Prop :=
  rowStateCode a < rowStateCode b ∨
  (rowStateCode a = rowStateCode b ∧ (rowIsBackup a → rowIsBackup b))

instance : DecidableRel C4ClaimOrder :=
  fun a b => inferInstanceAs (Decidable (rowStateCode a < rowStateCode b ∨
    (rowStateCode a = rowStateCode b ∧ (rowIsBackup a → rowIsBackup b))))

/-! ### Concrete data for counterexamples and witnesses -/

/-- An ordinary (non-backup) open channel. -/
def demo_channel : Channel :=
  { channel_id := "aa", node_id := "02ff",
    short_id_for_GUI := "100x1x0", get_state_for_GUI := "OPEN",
    get_state := 3, is_backup := false, is_imported := false,
    get_capacity := 100000,
    available_to_spend := fun _ => 50000,
    balance := fun _ => 60000 }

/-- The same channel after a state change (same cid, new state). -/
def demo_channel_v2 : Channel :=
  { channel_id := "aa", node_id := "02ff",
    short_id_for_GUI := "100x1x0", get_state_for_GUI := "CLOSED",
    get_state := 7, is_backup := false, is_imported := false,
    get_capacity := 100000,
    available_to_spend := fun _ => 0,
    balance := fun _ => 0 }

def demo_lnworker : Lnworker :=
  { get_node_alias := fun _ => some "alice",
    is_trampoline_peer := fun _ => false,
    get_channel_objects := [demo_channel],
    channels := [demo_channel] }

def demo_wallet : Wallet := { lnworker := some demo_lnworker }

/-- A one-row adapter state holding `demo_channel`. -/
def demo_state : List Row := [channel_to_model demo_lnworker demo_channel]

/-- A wallet without a Lightning engine. -/
def no_lnworker_wallet : Wallet := { lnworker := none }

/-- Rows after a rebuild against `demo_wallet`. -/
def c3_state0 : List Row :=
  match init_model demo_wallet [] with
  | Except.ok (st, _, _) => st
  | Except.error _ => []

/-- Rows after additionally inserting cid "aa", whose row is already present
and which is present in the domain collection. -/
def c3_state1 : List Row :=
  match new_channel demo_wallet c3_state0 "aa" with
  | Except.ok (st, _, _) => st
  | Except.error _ => []

/-- A non-backup channel with state code 5. -/
def c4_chanA : Channel :=
  { channel_id := "a4", node_id := "02a4",
    short_id_for_GUI := "1x1x1", get_state_for_GUI := "CLOSING",
    get_state := 5, is_backup := false, is_imported := false,
    get_capacity := 1000,
    available_to_spend := fun _ => 10,
    balance := fun _ => 20 }

/-- A backup channel with the smaller state code 3. -/
def c4_chanB : Channel :=
  { channel_id := "b4", node_id := "02b4",
    short_id_for_GUI := "2x2x2", get_state_for_GUI := "OPEN",
    get_state := 3, is_backup := true, is_imported := true,
    get_capacity := 2000,
    available_to_spend := fun _ => 0,
    balance := fun _ => 0 }

def c4_lnworker : Lnworker :=
  { get_node_alias := fun _ => none,
    is_trampoline_peer := fun _ => false,
    get_channel_objects := [c4_chanA, c4_chanB],
    channels := [c4_chanA, c4_chanB] }

def c4_wallet : Wallet := { lnworker := some c4_lnworker }

/-- The rows a rebuild against `c4_wallet` produces. -/
def c4_rows : List Row :=
  match init_model c4_wallet [] with
  | Except.ok (st, _, _) => st
  | Except.error _ => []

/-- A backup channel whose domain `is_imported` flag is set. -/
def c10_chanB : Channel :=
  { channel_id := "cc", node_id := "02cc",
    short_id_for_GUI := "3x3x3", get_state_for_GUI := "BACKUP",
    get_state := 2, is_backup := true, is_imported := true,
    get_capacity := 777,
    available_to_spend := fun _ => 0,
    balance := fun _ => 0 }

/-! ### Basic facts about model rows -/

theorem channel_to_model_keys (lnw : Lnworker) (c : Channel) :
    (channel_to_model lnw c).map Prod.fst = MODEL_KEYS := by
  cases hb : c.is_backup <;> simp [channel_to_model, hb, MODEL_KEYS]

theorem channel_to_model_cid (lnw : Lnworker) (c : Channel) :
    List.lookup "cid" (channel_to_model lnw c) = some (Value.str c.channel_id) := rfl

theorem channel_to_model_state_code (lnw : Lnworker) (c : Channel) :
    List.lookup "state_code" (channel_to_model lnw c) = some (Value.int c.get_state) := rfl

theorem channel_to_model_is_backup (lnw : Lnworker) (c : Channel) :
    List.lookup "is_backup" (channel_to_model lnw c) = some (Value.bool c.is_backup) := rfl

theorem MODEL_KEYS_nodup : MODEL_KEYS.Nodup := by decide

theorem chan_sort_score_model (lnw : Lnworker) (c : Channel) :
    chan_sort_score (channel_to_model lnw c) =
      Except.ok (c.get_state + if c.is_backup then 10 else 0) := by
  simp [chan_sort_score, dictGet, channel_to_model_state_code, channel_to_model_is_backup]

theorem chan_sort_key_model (lnw : Lnworker) (c : Channel) :
    chan_sort_key (channel_to_model lnw c) =
      c.get_state + (if c.is_backup then 10 else 0) := by
  simp [chan_sort_key, chan_sort_score_model]

theorem scores_of_model (lnw : Lnworker) (l : List Channel) :
    scores_of (l.map (channel_to_model lnw)) =
      Except.ok (l.map (fun c => c.get_state + if c.is_backup then 10 else 0)) := by
  induction l with
  | nil => rfl
  | cons c rest ih => simp [scores_of, chan_sort_score_model, ih]

/-! ### Facts about the dict model -/

theorem lookup_isSome_of_mem_keys (k : String) (l : Row)
    (h : k ∈ l.map Prod.fst) : (List.lookup k l).isSome := by
  induction l with
  | nil => simp at h
  | cons kv rest ih =>
    rcases kv with ⟨k1, v1⟩
    by_cases hk : k = k1
    · subst hk; simp [List.lookup]
    · have hmem : k ∈ rest.map Prod.fst := by simpa [hk] using h
      have hbeq : (k == k1) = false := by simp [hk]
      simpa [List.lookup, hbeq] using ih hmem

theorem dictUpdate_map_part (old upd : Row)
    (h : old.map Prod.fst = upd.map Prod.fst)
    (hnd : (upd.map Prod.fst).Nodup) :
    old.map (fun kv =>
      match List.lookup kv.1 upd with
      | some v => (kv.1, v)
      | none => kv) = upd := by
  induction old generalizing upd with
  | nil =>
    cases upd with
    | nil => rfl
    | cons _ _ => simp at h
  | cons kv0 rest ih =>
    cases upd with
    | nil => simp at h
    | cons kvu upd' =>
      rcases kv0 with ⟨k0, v0⟩
      rcases kvu with ⟨ku, vu⟩
      simp only [List.map_cons, List.cons.injEq] at h
      rcases h with ⟨hk, htail⟩
      subst hk
      simp only [List.map_cons, List.nodup_cons] at hnd
      rcases hnd with ⟨hknotin, hnd'⟩
      have hhead : List.lookup k0 ((k0, vu) :: upd') = some vu := by
        simp [List.lookup]
      have htailmap : rest.map (fun kv =>
          match List.lookup kv.1 ((k0, vu) :: upd') with
          | some v => (kv.1, v)
          | none => kv) = rest.map (fun kv =>
          match List.lookup kv.1 upd' with
          | some v => (kv.1, v)
          | none => kv) := by
        refine List.map_congr_left (fun kv hkv => ?_)
        have hmem : kv.1 ∈ upd'.map Prod.fst := by
          rw [← htail]
          exact List.mem_map_of_mem Prod.fst hkv
        have hne : kv.1 ≠ k0 := fun he => hknotin (he ▸ hmem)
        have hbeq : (kv.1 == k0) = false := by simp [hne]
        simp [List.lookup, hbeq]
      simp only [List.map_cons, hhead, htailmap]
      exact congrArg (List.cons (k0, vu)) (ih upd' htail hnd')

theorem dictUpdate_eq_of_keys (old upd : Row)
    (h : old.map Prod.fst = upd.map Prod.fst)
    (hnd : (upd.map Prod.fst).Nodup) :
    dictUpdate old upd = upd := by
  have hfilter : upd.filter (fun kv => (List.lookup kv.1 old).isNone) = [] := by
    rw [List.filter_eq_nil_iff]
    intro kv hkv
    have hmem : kv.1 ∈ old.map Prod.fst := by
      rw [h]
      exact List.mem_map_of_mem Prod.fst hkv
    have := lookup_isSome_of_mem_keys kv.1 old hmem
    simp only [Option.isNone]
    intro hcontra
    rcases hlook : List.lookup kv.1 old with _ | v
    · rw [hlook] at this; simp at this
    · rw [hlook] at hcontra; simp at hcontra
  rw [dictUpdate, hfilter, List.append_nil]
  exact dictUpdate_map_part old upd h hnd

/-- `dict.update` of one `channel_to_model` row into a row with the model
key set replaces every field: the result is the fresh row. -/
theorem dictUpdate_model (old : Row) (lnw : Lnworker) (c : Channel)
    (h : old.map Prod.fst = MODEL_KEYS) :
    dictUpdate old (channel_to_model lnw c) = channel_to_model lnw c := by
  refine dictUpdate_eq_of_keys old (channel_to_model lnw c) ?_ ?_
  · rw [h, channel_to_model_keys]
  · rw [channel_to_model_keys]; exact MODEL_KEYS_nodup

/-! ### Facts about the cid scan -/

/-- Truth of a successful `find_cid_row`: the index is in range and holds the
returned row, that row's cid matches, and every earlier row's cid differs. -/
theorem find_cid_row_found (st : List Row) (cid : String) (i : Nat) (row : Row)
    (h : find_cid_row st cid = Except.ok (some (i, row))) :
    st[i]? = some row ∧ List.lookup "cid" row = some (Value.str cid) ∧
      ∀ j, j < i → ∀ r, st[j]? = some r →
        List.lookup "cid" r ≠ some (Value.str cid) := by
  induction st generalizing i with
  | nil => simp [find_cid_row] at h
  | cons c rest ih =>
    rw [find_cid_row] at h
    rcases hg : dictGet c "cid" with e | v
    · rw [hg] at h; exact absurd h (by simp)
    · rw [hg] at h
      simp only at h
      by_cases hv : v = Value.str cid
      · rw [if_pos hv] at h
        simp only [Except.ok.injEq, Option.some.injEq, Prod.mk.injEq] at h
        rcases h with ⟨h1, h2⟩
        refine ⟨?_, ?_, ?_⟩
        · rw [← h1]; simp [h2]
        · rw [← h2, ← hv]
          rw [dictGet] at hg
          rcases hlook : List.lookup "cid" c with _ | v'
          · rw [hlook] at hg; exact absurd hg (by simp)
          · rw [hlook] at hg
            simp only [Except.ok.injEq] at hg
            rw [hg]
        · intro j hj r hr
          rw [← h1] at hj
          exact absurd hj (Nat.not_lt_zero j)
      · rw [if_neg hv] at h
        rcases hrec : find_cid_row rest cid with e | o
        · rw [hrec] at h; exact absurd h (by simp)
        · rw [hrec] at h
          rcases o with _ | ⟨i', row'⟩
          · exact absurd h (by simp)
          · simp only [Except.ok.injEq, Option.some.injEq, Prod.mk.injEq] at h
            rcases h with ⟨h1, h2⟩
            subst h2
            rcases ih i' hrec with ⟨hget, hcid, hbefore⟩
            refine ⟨?_, hcid, ?_⟩
            · rw [← h1]; simpa using hget
            · intro j hj r hr
              cases j with
              | zero =>
                have hrc : r = c := by
                  have := hr
                  simp only [List.getElem?_cons_zero, Option.some.injEq] at this
                  exact this.symm
                rw [dictGet] at hg
                have hlc : List.lookup "cid" r = some v := by
                  rw [hrc]
                  rcases hlook : List.lookup "cid" c with _ | v'
                  · rw [hlook] at hg; exact absurd hg (by simp)
                  · rw [hlook] at hg
                    simp only [Except.ok.injEq] at hg
                    rw [hg]
                rw [hlc]
                intro hcontra
                exact hv (Option.some.inj hcontra)
              | succ j' =>
                have hj' : j' < i' := by omega
                exact hbefore j' hj' r (by simpa using hr)

/-- `find_cid_row` never raises on rows that all carry the model key set. -/
theorem find_cid_row_ok_of_keys (st : List Row) (cid : String)
    (h : ∀ r ∈ st, r.map Prod.fst = MODEL_KEYS) :
    ∃ o, find_cid_row st cid = Except.ok o := by
  induction st with
  | nil => exact ⟨none, rfl⟩
  | cons c rest ih =>
    have hc : "cid" ∈ c.map Prod.fst := by
      rw [h c (List.mem_cons_self c rest)]; decide
    have hsome := lookup_isSome_of_mem_keys "cid" c hc
    rcases hlook : List.lookup "cid" c with _ | v
    · rw [hlook] at hsome; simp at hsome
    · rcases ih (fun r hr => h r (List.mem_cons_of_mem c hr)) with ⟨o, ho⟩
      by_cases hv : v = Value.str cid
      · refine ⟨some (0, c), ?_⟩
        rw [find_cid_row, dictGet, hlook]
        dsimp only
        rw [if_pos hv]
      · rcases o with _ | ⟨i, row⟩
        · refine ⟨none, ?_⟩
          rw [find_cid_row, dictGet, hlook]
          dsimp only
          rw [if_neg hv, ho]
        · refine ⟨some (i + 1, row), ?_⟩
          rw [find_cid_row, dictGet, hlook]
          dsimp only
          rw [if_neg hv, ho]

/-- Python `list.remove(x)` (= `List.erase`) removes exactly the element at
index `i` when the elements before `i` all differ from `x`. -/
theorem erase_eq_eraseIdx_of (st : List Row) (i : Nat) (row : Row)
    (hget : st[i]? = some row)
    (hbefore : ∀ j, j < i → ∀ r, st[j]? = some r → r ≠ row) :
    st.erase row = st.eraseIdx i := by
  induction st generalizing i with
  | nil => simp at hget
  | cons a rest ih =>
    cases i with
    | zero =>
      simp only [List.getElem?_cons_zero, Option.some.injEq] at hget
      subst hget
      simp [List.erase_cons]
    | succ i' =>
      have hne : a ≠ row := hbefore 0 (Nat.succ_pos i') a (by simp)
      have hbeq : (a == row) = false := by simp [hne]
      rw [List.erase_cons, hbeq]
      simp only [Bool.false_eq_true, if_false, List.eraseIdx_cons_succ]
      refine congrArg (List.cons a) ?_
      refine ih i' (by simpa using hget) ?_
      intro j hj r hr
      exact hbefore (j + 1) (by omega) r (by simpa using hr)

/-! ### Characterization of each operation -/

/-- `init_model` without a Lightning engine: keep the rows, emit nothing,
log the warning. -/
theorem init_model_none (w : Wallet) (st : List Row) (h : w.lnworker = none) :
    init_model w st =
      Except.ok (st, [], ["init_model", "lnworker should be defined"]) := by
  simp only [init_model, h]

/-- `init_model` with a Lightning engine: map all channel objects, sort by
the score, reset and refill. -/
theorem init_model_some (w : Wallet) (lnw : Lnworker) (st : List Row)
    (h : w.lnworker = some lnw) :
    init_model w st = Except.ok
      (List.insertionSort score_le (lnw.get_channel_objects.map (channel_to_model lnw)),
       [Signal.modelReset,
        Signal.rowsInserted 0
          (((List.insertionSort score_le
              (lnw.get_channel_objects.map (channel_to_model lnw))).length : Int) - 1),
        Signal.countChanged],
       ["init_model"]) := by
  simp only [init_model, h, scores_of_model]

/-- `do_update` on an in-range row carrying the model key set replaces that
row wholesale with the freshly computed one. -/
theorem do_update_eq (w : Wallet) (lnw : Lnworker) (st : List Row) (i : Nat)
    (row : Row) (ch : Channel) (hlnw : w.lnworker = some lnw)
    (hget : st[i]? = some row) (hkeys : row.map Prod.fst = MODEL_KEYS) :
    do_update w st i ch = Except.ok
      (st.set i (channel_to_model lnw ch),
       [Signal.dataChanged i, Signal.numOpenChannelsChanged],
       ["updating our channel " ++ ch.short_id_for_GUI]) := by
  simp only [do_update, hlnw, hget]
  rw [dictUpdate_model row lnw ch hkeys]

/-- `on_channel_updated` when some row matches the channel's cid. -/
theorem on_channel_updated_found (w : Wallet) (lnw : Lnworker) (st : List Row)
    (ch : Channel) (i : Nat) (row : Row) (hlnw : w.lnworker = some lnw)
    (hkeys : row.map Prod.fst = MODEL_KEYS)
    (hfind : find_cid_row st ch.channel_id = Except.ok (some (i, row))) :
    on_channel_updated w st ch = Except.ok
      (st.set i (channel_to_model lnw ch),
       [Signal.dataChanged i, Signal.numOpenChannelsChanged],
       ["updating our channel " ++ ch.short_id_for_GUI]) := by
  have hget := (find_cid_row_found st ch.channel_id i row hfind).1
  simp only [on_channel_updated, hfind]
  exact do_update_eq w lnw st i row ch hlnw hget hkeys

/-- `on_channel_updated` when no row matches: nothing happens, nothing is
emitted or logged. -/
theorem on_channel_updated_notfound (w : Wallet) (st : List Row) (ch : Channel)
    (hfind : find_cid_row st ch.channel_id = Except.ok none) :
    on_channel_updated w st ch = Except.ok (st, [], []) := by
  simp only [on_channel_updated, hfind]

/-- `new_channel` when the cid resolves in the domain collection: prepend
the mapped row. -/
theorem new_channel_found (w : Wallet) (lnw : Lnworker) (st : List Row)
    (cid : String) (ch : Channel) (hlnw : w.lnworker = some lnw)
    (hfind : lnw.channels.find? (fun c => cid == c.channel_id) = some ch) :
    new_channel w st cid = Except.ok
      (channel_to_model lnw ch :: st,
       [Signal.rowsInserted 0 0, Signal.countChanged],
       ["new channel with cid " ++ cid, "item"]) := by
  simp only [new_channel, hlnw, hfind]

/-- `new_channel` when the cid does not resolve: no row change, no signal,
only the entry debug log. -/
theorem new_channel_notfound (w : Wallet) (lnw : Lnworker) (st : List Row)
    (cid : String) (hlnw : w.lnworker = some lnw)
    (hfind : lnw.channels.find? (fun c => cid == c.channel_id) = none) :
    new_channel w st cid = Except.ok (st, [], ["new channel with cid " ++ cid]) := by
  simp only [new_channel, hlnw, hfind]

/-- `remove_channel` when a row matches: Python's `list.remove` deletes
exactly the first matching row (the rows before it all have different cids,
hence are different dicts). -/
theorem remove_channel_found (st : List Row) (cid : String) (i : Nat)
    (row : Row) (hfind : find_cid_row st cid = Except.ok (some (i, row))) :
    remove_channel st cid = Except.ok
      (st.eraseIdx i,
       [Signal.rowsRemoved i i, Signal.countChanged],
       ["remove channel with cid " ++ cid, cid]) := by
  rcases find_cid_row_found st cid i row hfind with ⟨hget, hcid, hbefore⟩
  have herase : st.erase row = st.eraseIdx i := by
    refine erase_eq_eraseIdx_of st i row hget ?_
    intro j hj r hr heq
    exact (hbefore j hj r hr) (by rw [heq]; exact hcid)
  simp only [remove_channel, hfind, herase]

/-- `remove_channel` when no row matches: no row change, no signal, only the
entry debug log. -/
theorem remove_channel_notfound (st : List Row) (cid : String)
    (hfind : find_cid_row st cid = Except.ok none) :
    remove_channel st cid = Except.ok (st, [], ["remove channel with cid " ++ cid]) := by
  simp only [remove_channel, hfind]

/-! ### Row read-back on model rows -/

theorem rowStateCode_model (lnw : Lnworker) (c : Channel) :
    rowStateCode (channel_to_model lnw c) = c.get_state := by
  simp [rowStateCode, channel_to_model_state_code]

theorem rowIsBackup_model (lnw : Lnworker) (c : Channel) :
    rowIsBackup (channel_to_model lnw c) = c.is_backup := by
  simp [rowIsBackup, channel_to_model_is_backup]

theorem rowCid_model (lnw : Lnworker) (c : Channel) :
    rowCid (channel_to_model lnw c) = some (Value.str c.channel_id) := by
  simp [rowCid, channel_to_model_cid]

/-! ### The well-formedness invariant is preserved by every operation -/

theorem RowsWF_sorted_models (lnw : Lnworker) (l : List Channel) :
    RowsWF (List.insertionSort score_le (l.map (channel_to_model lnw))) := by
  intro r hr
  have hmem : r ∈ l.map (channel_to_model lnw) :=
    (List.perm_insertionSort score_le (l.map (channel_to_model lnw))).mem_iff.mp hr
  rcases List.mem_map.mp hmem with ⟨c, _, hc⟩
  rw [← hc]
  exact channel_to_model_keys lnw c

theorem RowsWF_init (w : Wallet) (st st' : List Row) (sigs : List Signal)
    (logs : List String) (h : init_model w st = Except.ok (st', sigs, logs))
    (hWF : RowsWF st) : RowsWF st' := by
  rcases hw : w.lnworker with _ | lnw
  · rw [init_model_none w st hw] at h
    simp only [Except.ok.injEq, Prod.mk.injEq] at h
    rw [← h.1]; exact hWF
  · rw [init_model_some w lnw st hw] at h
    simp only [Except.ok.injEq, Prod.mk.injEq] at h
    rw [← h.1]
    exact RowsWF_sorted_models lnw lnw.get_channel_objects

theorem RowsWF_update (w : Wallet) (st st' : List Row) (ch : Channel)
    (sigs : List Signal) (logs : List String)
    (h : on_channel_updated w st ch = Except.ok (st', sigs, logs))
    (hWF : RowsWF st) : RowsWF st' := by
  rcases hfind : find_cid_row st ch.channel_id with e | o
  · rw [on_channel_updated, hfind] at h; exact absurd h (by simp)
  · rcases o with _ | ⟨i, row⟩
    · rw [on_channel_updated_notfound w st ch hfind] at h
      simp only [Except.ok.injEq, Prod.mk.injEq] at h
      rw [← h.1]; exact hWF
    · rcases hw : w.lnworker with _ | lnw
      · rw [on_channel_updated, hfind] at h
        simp only [do_update, hw] at h
        exact absurd h (by simp)
      · have hget := (find_cid_row_found st ch.channel_id i row hfind).1
        have hkeys := hWF row (List.getElem?_mem hget)
        rw [on_channel_updated_found w lnw st ch i row hw hkeys hfind] at h
        simp only [Except.ok.injEq, Prod.mk.injEq] at h
        rw [← h.1]
        intro r hr
        rcases List.mem_or_eq_of_mem_set hr with hmem | heq
        · exact hWF r hmem
        · rw [heq]; exact channel_to_model_keys lnw ch

theorem RowsWF_insert (w : Wallet) (st st' : List Row) (cid : String)
    (sigs : List Signal) (logs : List String)
    (h : new_channel w st cid = Except.ok (st', sigs, logs))
    (hWF : RowsWF st) : RowsWF st' := by
  rcases hw : w.lnworker with _ | lnw
  · rw [new_channel, hw] at h; exact absurd h (by simp)
  · rcases hfind : lnw.channels.find? (fun c => cid == c.channel_id) with _ | ch
    · rw [new_channel_notfound w lnw st cid hw hfind] at h
      simp only [Except.ok.injEq, Prod.mk.injEq] at h
      rw [← h.1]; exact hWF
    · rw [new_channel_found w lnw st cid ch hw hfind] at h
      simp only [Except.ok.injEq, Prod.mk.injEq] at h
      rw [← h.1]
      intro r hr
      rcases List.mem_cons.mp hr with heq | hmem
      · rw [heq]; exact channel_to_model_keys lnw ch
      · exact hWF r hmem

theorem RowsWF_remove (st st' : List Row) (cid : String)
    (sigs : List Signal) (logs : List String)
    (h : remove_channel st cid = Except.ok (st', sigs, logs))
    (hWF : RowsWF st) : RowsWF st' := by
  rcases hfind : find_cid_row st cid with e | o
  · rw [remove_channel, hfind] at h; exact absurd h (by simp)
  · rcases o with _ | ⟨i, row⟩
    · rw [remove_channel_notfound st cid hfind] at h
      simp only [Except.ok.injEq, Prod.mk.injEq] at h
      rw [← h.1]; exact hWF
    · rw [remove_channel_found st cid i row hfind] at h
      simp only [Except.ok.injEq, Prod.mk.injEq] at h
      rw [← h.1]
      intro r hr
      exact hWF r ((List.eraseIdx_sublist st i).subset hr)

theorem AStep_WF (w : Wallet) (st st' : List Row) (h : AStep w st st')
    (hWF : RowsWF st) : RowsWF st' := by
  cases h with
  | rebuild hop => exact RowsWF_init w _ _ _ _ hop hWF
  | update hop => exact RowsWF_update w _ _ _ _ _ hop hWF
  | insert hop => exact RowsWF_insert w _ _ _ _ _ hop hWF
  | removeRow hop => exact RowsWF_remove _ _ _ _ _ hop hWF

theorem reachable_WF (w : Wallet) (st : List Row) (h : Reachable w st) :
    RowsWF st := by
  induction h with
  | refl => intro r hr; simp at hr
  | tail _ hstep ih => exact AStep_WF w _ _ hstep ih

/-! ### The open-channel count -/

theorem set_of_getElem_eq {α : Type} (l : List α) (i : Nat) (a : α)
    (h : l[i]? = some a) : l.set i a = l := by
  induction l generalizing i with
  | nil => rfl
  | cons x xs ih =>
    cases i with
    | zero =>
      simp only [List.getElem?_cons_zero, Option.some.injEq] at h
      simp [List.set_cons_zero, ← h]
    | succ i' =>
      rw [List.set_cons_succ]
      exact congrArg (List.cons x) (ih i' (by simpa using h))

theorem open_flags_WF (st : List Row) (h : RowsWF st) :
    open_flags st = Except.ok (st.map (fun r =>
      if List.lookup "state_code" r = some (Value.int ChannelState_OPEN)
      then 1 else 0)) := by
  induction st with
  | nil => rfl
  | cons c rest ih =>
    have hc : "state_code" ∈ c.map Prod.fst := by
      rw [h c (List.mem_cons_self c rest)]; decide
    have hsome := lookup_isSome_of_mem_keys "state_code" c hc
    rcases hlook : List.lookup "state_code" c with _ | v
    · rw [hlook] at hsome; simp at hsome
    · rw [open_flags, dictGet, hlook]
      dsimp only
      rw [ih (fun r hr => h r (List.mem_cons_of_mem c hr))]
      simp only [List.map_cons, hlook, Option.some.injEq]

theorem sum_flags_eq_countP (st : List Row) :
    (st.map (fun r =>
      if List.lookup "state_code" r = some (Value.int ChannelState_OPEN)
      then 1 else 0)).sum
      = st.countP (fun r =>
          List.lookup "state_code" r == some (Value.int ChannelState_OPEN)) := by
  induction st with
  | nil => rfl
  | cons c rest ih =>
    simp only [List.map_cons, List.sum_cons, List.countP_cons, ih]
    by_cases hc : List.lookup "state_code" c = some (Value.int ChannelState_OPEN)
    · simp [hc, Nat.add_comm]
    · simp [hc]

/-- On well-formed rows `numOpenChannels` is exactly the count of rows whose
state code is the open constant. -/
theorem numOpenChannels_WF (st : List Row) (h : RowsWF st) :
    numOpenChannels st = Except.ok (st.countP
      (fun r => List.lookup "state_code" r == some (Value.int ChannelState_OPEN))) := by
  rw [numOpenChannels, open_flags_WF st h]
  dsimp only
  rw [sum_flags_eq_countP]

/-! ### Sort order of the rebuilt list -/

theorem sorted_models_pairwise (lnw : Lnworker) (l : List Channel) :
    (List.insertionSort score_le (l.map (channel_to_model lnw))).Pairwise
      (fun a b => chan_sort_key a ≤ chan_sort_key b ∧
        (rowStateCode a = rowStateCode b → (rowIsBackup a → rowIsBackup b))) := by
  have hsorted : (List.insertionSort score_le (l.map (channel_to_model lnw))).Pairwise score_le :=
    List.sorted_insertionSort score_le (l.map (channel_to_model lnw))
  refine hsorted.imp_of_mem ?_
  intro a b ha hb hab
  have hamem : a ∈ l.map (channel_to_model lnw) :=
    (List.perm_insertionSort score_le (l.map (channel_to_model lnw))).mem_iff.mp ha
  have hbmem : b ∈ l.map (channel_to_model lnw) :=
    (List.perm_insertionSort score_le (l.map (channel_to_model lnw))).mem_iff.mp hb
  rcases List.mem_map.mp hamem with ⟨ca, _, hca⟩
  rcases List.mem_map.mp hbmem with ⟨cb, _, hcb⟩
  subst hca
  subst hcb
  refine ⟨hab, ?_⟩
  intro hstate hba
  rw [rowIsBackup_model] at hba ⊢
  rw [rowStateCode_model, rowStateCode_model] at hstate
  have hkey : chan_sort_key (channel_to_model lnw ca) ≤
      chan_sort_key (channel_to_model lnw cb) := hab
  rw [chan_sort_key_model, chan_sort_key_model] at hkey
  cases hbb : cb.is_backup with
  | false =>
    simp [hba, hbb] at hkey
    exfalso
    omega
  | true => rfl

/-! ### Uniqueness of cids -/

theorem cidsOf_init (w : Wallet) (lnw : Lnworker) (st st' : List Row)
    (sigs : List Signal) (logs : List String) (hw : w.lnworker = some lnw)
    (h : init_model w st = Except.ok (st', sigs, logs))
    (hnd : (lnw.get_channel_objects.map Channel.channel_id).Nodup) :
    (cidsOf st').Nodup := by
  rw [init_model_some w lnw st hw] at h
  simp only [Except.ok.injEq, Prod.mk.injEq] at h
  rw [← h.1]
  have hperm : (cidsOf (List.insertionSort score_le
      (lnw.get_channel_objects.map (channel_to_model lnw)))).Perm
      (cidsOf (lnw.get_channel_objects.map (channel_to_model lnw))) :=
    (List.perm_insertionSort score_le _).map rowCid
  refine hperm.nodup_iff.mpr ?_
  have heq : cidsOf (lnw.get_channel_objects.map (channel_to_model lnw))
      = (lnw.get_channel_objects.map Channel.channel_id).map
          (fun s => some (Value.str s)) := by
    rw [cidsOf, List.map_map, List.map_map]
    exact List.map_congr_left (fun c _ => rowCid_model lnw c)
  rw [heq]
  refine List.Nodup.map ?_ hnd
  intro x y hxy
  simpa using hxy

theorem cidsOf_update_eq (w : Wallet) (lnw : Lnworker) (st st' : List Row)
    (ch : Channel) (sigs : List Signal) (logs : List String) (i : Nat) (row : Row)
    (hw : w.lnworker = some lnw) (hWF : RowsWF st)
    (hfind : find_cid_row st ch.channel_id = Except.ok (some (i, row)))
    (h : on_channel_updated w st ch = Except.ok (st', sigs, logs)) :
    cidsOf st' = cidsOf st := by
  rcases find_cid_row_found st ch.channel_id i row hfind with ⟨hget, hcid, _⟩
  have hkeys := hWF row (List.getElem?_mem hget)
  rw [on_channel_updated_found w lnw st ch i row hw hkeys hfind] at h
  simp only [Except.ok.injEq, Prod.mk.injEq] at h
  rw [← h.1, cidsOf, List.map_set]
  have hv : rowCid (channel_to_model lnw ch) = rowCid row := by
    rw [rowCid_model, rowCid, hcid]
  rw [hv]
  refine set_of_getElem_eq (st.map rowCid) i (rowCid row) ?_
  rw [List.getElem?_map, hget]
  rfl

/-- One uniqueness-preserving step keeps the combined invariant: pairwise
distinct cids and model-shaped rows. -/
theorem UStep_inv (w : Wallet) (st st' : List Row) (hw : WalletWF w)
    (h : UStep w st st') (hinv : (cidsOf st).Nodup ∧ RowsWF st) :
    (cidsOf st').Nodup ∧ RowsWF st' := by
  rcases hinv with ⟨hnd, hWF⟩
  cases h with
  | rebuild hop =>
    refine ⟨?_, RowsWF_init w _ _ _ _ hop hWF⟩
    rcases hwl : w.lnworker with _ | lnw
    · rw [init_model_none w _ hwl] at hop
      simp only [Except.ok.injEq, Prod.mk.injEq] at hop
      rw [← hop.1]; exact hnd
    · have hlw : LnworkerWF lnw := by
        simp only [WalletWF, hwl] at hw
        exact hw
      exact cidsOf_init w lnw _ _ _ _ hwl hop hlw.1
  | update hop =>
    rename_i ch
    refine ⟨?_, RowsWF_update w _ _ _ _ _ hop hWF⟩
    rcases hfind : find_cid_row st ch.channel_id with e | o
    · rw [on_channel_updated, hfind] at hop
      exact absurd hop (by simp)
    · rcases o with _ | ⟨i, row⟩
      · rw [on_channel_updated_notfound w st ch hfind] at hop
        simp only [Except.ok.injEq, Prod.mk.injEq] at hop
        rw [← hop.1]; exact hnd
      · rcases hwl : w.lnworker with _ | lnw
        · rw [on_channel_updated, hfind] at hop
          simp only [do_update, hwl] at hop
          exact absurd hop (by simp)
        · rw [cidsOf_update_eq w lnw st _ ch _ _ i row hwl hWF hfind hop]
          exact hnd
  | insert hfresh hop =>
    rename_i cid
    refine ⟨?_, RowsWF_insert w _ _ _ _ _ hop hWF⟩
    rcases hwl : w.lnworker with _ | lnw
    · rw [new_channel, hwl] at hop
      exact absurd hop (by simp)
    · rcases hfind : lnw.channels.find? (fun c => cid == c.channel_id) with _ | ch
      · rw [new_channel_notfound w lnw st cid hwl hfind] at hop
        simp only [Except.ok.injEq, Prod.mk.injEq] at hop
        rw [← hop.1]; exact hnd
      · rw [new_channel_found w lnw st cid ch hwl hfind] at hop
        simp only [Except.ok.injEq, Prod.mk.injEq] at hop
        rw [← hop.1, cidsOf, List.map_cons]
        refine List.nodup_cons.mpr ⟨?_, hnd⟩
        have hcid : ch.channel_id = cid := by
          have hp := List.find?_some hfind
          simp only [beq_iff_eq] at hp
          exact hp.symm
        rw [rowCid_model, hcid]
        exact hfresh
  | removeRow hop =>
    rename_i cid
    refine ⟨?_, RowsWF_remove _ _ _ _ _ hop hWF⟩
    rcases hfind : find_cid_row st cid with e | o
    · rw [remove_channel, hfind] at hop
      exact absurd hop (by simp)
    · rcases o with _ | ⟨i, row⟩
      · rw [remove_channel_notfound st cid hfind] at hop
        simp only [Except.ok.injEq, Prod.mk.injEq] at hop
        rw [← hop.1]; exact hnd
      · rw [remove_channel_found st cid i row hfind] at hop
        simp only [Except.ok.injEq, Prod.mk.injEq] at hop
        rw [← hop.1, cidsOf]
        exact List.Nodup.sublist ((List.eraseIdx_sublist st i).map rowCid) hnd

/-! ### Shared concrete evaluations -/

theorem pyListGet_mem {α : Type} (l : List α) (i : Int) (a : α)
    (h : pyListGet l i = some a) : a ∈ l := by
  rcases hidx : pyIndex l.length i with _ | j
  · simp [pyListGet, hidx] at h
  · simp only [pyListGet, hidx] at h
    exact List.getElem?_mem h

theorem demo_init_eq :
    init_model demo_wallet [] = Except.ok
      (c3_state0,
       [Signal.modelReset, Signal.rowsInserted 0 0, Signal.countChanged],
       ["init_model"]) := rfl

/-! ### The claims -/

/-- C1: the claim says every `ChannelRow` carries a value for every declared
role, in particular initiator, the CSV delays, the frozen flags, the channel
type and the funding transaction.  The code's `channel_to_model` never
writes those seven keys although `_ROLE_NAMES` declares them, so the row
dict lacks them and the `data` accessor fails (a Python `KeyError`) there:
here evaluated on a concrete channel at role `Qt.UserRole + 3`
('initiator'). -/
theorem C1_missing_declared_roles :
    List.lookup "initiator" (channel_to_model demo_lnworker demo_channel) = none ∧
    List.lookup "l_csv_delay" (channel_to_model demo_lnworker demo_channel) = none ∧
    List.lookup "r_csv_delay" (channel_to_model demo_lnworker demo_channel) = none ∧
    List.lookup "send_frozen" (channel_to_model demo_lnworker demo_channel) = none ∧
    List.lookup "receive_frozen" (channel_to_model demo_lnworker demo_channel) = none ∧
    List.lookup "type" (channel_to_model demo_lnworker demo_channel) = none ∧
    List.lookup "funding_tx" (channel_to_model demo_lnworker demo_channel) = none ∧
    "initiator" ∈ ROLE_NAMES ∧
    data demo_state 0 (Qt_UserRole + 3) = none := by decide

/-- C2 counterexample: the field-by-role accessor does fail on some input:
on a one-row list (the row index 0 is valid) with the declared role 259
(`Qt.UserRole + 3`, 'initiator'), `data` raises `KeyError` (modelled as
`none`), refuting "no operation exposed to the UI framework raises". -/
theorem C2_counterexample :
    rowCount demo_state = 1 ∧ data demo_state 0 259 = none := by decide

/-- C2 amended: row count is total; rebuild never raises (a missing engine
is a warn-log no-op); remove never raises on adapter (model-shaped) row
states; update never raises when no row matches or when the Lightning
engine is present, but DOES raise when the engine is missing and a row
matches (`do_update` calls `channel_to_model`, which dereferences the
engine); insert never raises when the engine is present and raises when it
is missing; the two filtered views configure without raising; and the
accessor returns a value whenever the row index resolves and the role
resolves to one of the keys the adapter populates (it still raises on the
seven declared-but-never-populated roles and on unresolvable indices). -/
theorem C2_amended (w : Wallet) (st : List Row) (ch : Channel)
    (cid : String) (hWF : RowsWF st) :
    rowCount st = st.length ∧
    (init_model w st).isOk = true ∧
    (remove_channel st cid).isOk = true ∧
    (find_cid_row st ch.channel_id = Except.ok none →
        on_channel_updated w st ch = Except.ok (st, [], [])) ∧
    (∀ lnw, w.lnworker = some lnw → (on_channel_updated w st ch).isOk = true) ∧
    (∀ i row, w.lnworker = none →
        find_cid_row st ch.channel_id = Except.ok (some (i, row)) →
        (on_channel_updated w st ch).isOk = false) ∧
    (∀ lnw, w.lnworker = some lnw → (new_channel w st cid).isOk = true) ∧
    (w.lnworker = none → (new_channel w st cid).isOk = false) ∧
    filterModelBackups.isOk = true ∧
    filterModelNoBackups.isOk = true ∧
    (∀ (i : Int) (role : Int) (tx : Row) (name : String),
        pyListGet st i = some tx →
        pyListGet ROLE_NAMES (role - Qt_UserRole) = some name →
        name ∈ MODEL_KEYS →
        (data st i role).isSome = true) := by
  refine ⟨rfl, ?_, ?_, ?_, ?_, ?_, ?_, ?_, rfl, rfl, ?_⟩
  · rcases hlw : w.lnworker with _ | lnw
    · rw [init_model_none w st hlw]; rfl
    · rw [init_model_some w lnw st hlw]; rfl
  · rcases find_cid_row_ok_of_keys st cid hWF with ⟨o, ho⟩
    rcases o with _ | ⟨i, row⟩
    · rw [remove_channel_notfound st cid ho]; rfl
    · rw [remove_channel_found st cid i row ho]; rfl
  · intro hfind
    exact on_channel_updated_notfound w st ch hfind
  · intro lnw hlnw
    rcases find_cid_row_ok_of_keys st ch.channel_id hWF with ⟨o, ho⟩
    rcases o with _ | ⟨i, row⟩
    · rw [on_channel_updated_notfound w st ch ho]; rfl
    · have hget := (find_cid_row_found st ch.channel_id i row ho).1
      have hkeys := hWF row (List.getElem?_mem hget)
      rw [on_channel_updated_found w lnw st ch i row hlnw hkeys ho]; rfl
  · intro i row hnone hfind
    rw [on_channel_updated, hfind]
    simp only [do_update, hnone]
    rfl
  · intro lnw hlnw
    rcases hfind : lnw.channels.find? (fun c => cid == c.channel_id) with _ | ch2
    · rw [new_channel_notfound w lnw st cid hlnw hfind]; rfl
    · rw [new_channel_found w lnw st cid ch2 hlnw hfind]; rfl
  · intro hnone
    simp only [new_channel, hnone]
    rfl
  · intro i role tx name hgetrow hgetname hmem
    simp only [data, hgetrow, hgetname]
    have hkeys := hWF tx (pyListGet_mem st i tx hgetrow)
    exact lookup_isSome_of_mem_keys name tx (by rw [hkeys]; exact hmem)

/-- C2 amended, witnessed twice: at a wallet with an engine (everything
completes, the accessor succeeds on populated roles) and at a wallet
without one (update on a matching row and insert do raise). -/
theorem C2_amended_witness :
    RowsWF demo_state ∧
    (rowCount demo_state = demo_state.length ∧
     (init_model demo_wallet demo_state).isOk = true ∧
     (remove_channel demo_state "zz").isOk = true ∧
     (on_channel_updated demo_wallet demo_state demo_channel_v2).isOk = true ∧
     (new_channel demo_wallet demo_state "zz").isOk = true ∧
     filterModelBackups.isOk = true ∧
     filterModelNoBackups.isOk = true ∧
     (∀ (i : Int) (role : Int) (tx : Row) (name : String),
        pyListGet demo_state i = some tx →
        pyListGet ROLE_NAMES (role - Qt_UserRole) = some name →
        name ∈ MODEL_KEYS →
        (data demo_state i role).isSome = true)) ∧
    (on_channel_updated no_lnworker_wallet demo_state demo_channel_v2).isOk = false ∧
    (new_channel no_lnworker_wallet demo_state "aa").isOk = false := by
  have hwf : RowsWF demo_state := by
    show ∀ r ∈ demo_state, r.map Prod.fst = MODEL_KEYS
    decide
  have hsome := C2_amended demo_wallet demo_state demo_channel_v2 "zz" hwf
  have hnone := C2_amended no_lnworker_wallet demo_state demo_channel_v2 "aa" hwf
  refine ⟨hwf, ⟨hsome.1, hsome.2.1, hsome.2.2.1,
    hsome.2.2.2.2.1 demo_lnworker rfl,
    hsome.2.2.2.2.2.2.1 demo_lnworker rfl,
    hsome.2.2.2.2.2.2.2.2.1, hsome.2.2.2.2.2.2.2.2.2.1,
    hsome.2.2.2.2.2.2.2.2.2.2⟩, ?_, ?_⟩
  · exact hnone.2.2.2.2.2.1 0 (channel_to_model demo_lnworker demo_channel) rfl rfl
  · exact hnone.2.2.2.2.2.2.2.1 rfl

/-- C3 counterexample: rebuilding against a one-channel wallet and then
inserting the cid "aa" — whose row is already in the list and which is
present in the domain collection — leaves two rows with the same cid, so
uniqueness is NOT preserved by every insert. -/
theorem C3_counterexample :
    cidsOf c3_state1 = [some (Value.str "aa"), some (Value.str "aa")] ∧
    ¬ (cidsOf c3_state1).Nodup := by decide

/-- C3 amended: the cid-uniqueness invariant holds after any sequence of
rebuild, apply-update, remove, and insert of a cid NOT already among the
rows, starting from the empty list, provided the domain channel collections
are keyed by cid (pairwise distinct ids).  An insert of an already-present
cid violates it (see the counterexample). -/
theorem C3_amended (w : Wallet) (st : List Row) (hw : WalletWF w)
    (h : Relation.ReflTransGen (UStep w) [] st) :
    (cidsOf st).Nodup := by
  have hinv : (cidsOf st).Nodup ∧ RowsWF st := by
    induction h with
    | refl => exact ⟨by simp [cidsOf], fun r hr => absurd hr (by simp)⟩
    | tail _ hstep ih => exact UStep_inv w _ _ hw hstep ih
  exact hinv.1

/-- C3 amended, witnessed on the state reached by one rebuild. -/
theorem C3_amended_witness :
    WalletWF demo_wallet ∧ (cidsOf c3_state0).Nodup := by
  have hww : WalletWF demo_wallet := by
    show LnworkerWF demo_lnworker
    exact ⟨by decide, by decide⟩
  exact ⟨hww, C3_amended demo_wallet c3_state0 hww
    (Relation.ReflTransGen.single (UStep.rebuild demo_init_eq))⟩

/-- C4 counterexample: rebuild against a wallet holding a non-backup channel
with state code 5 and a backup channel with state code 3 puts the state-5
row first (scores 5 and 13), so the list is NOT sorted by (state code,
backup flag) lexicographically as the claim states. -/
theorem C4_counterexample :
    c4_rows.map rowStateCode = [5, 3] ∧
    c4_rows.map rowIsBackup = [false, true] ∧
    ¬ c4_rows.Pairwise C4ClaimOrder := by decide

/-- C4 amended: with a Lightning engine holding N channels, rebuild yields
exactly N rows — a permutation of the mapped domain channels — sorted
ascending by the score `state_code + (10 if backup else 0)`; consequently,
among rows of EQUAL state code non-backup rows precede backup rows, but a
backup row sorts after every non-backup row of nearby state code, not by
state code first. -/
theorem C4_amended (w : Wallet) (lnw : Lnworker) (st : List Row)
    (hlnw : w.lnworker = some lnw) :
    ∃ st' : List Row,
      init_model w st = Except.ok
        (st',
         [Signal.modelReset, Signal.rowsInserted 0 ((st'.length : Int) - 1),
          Signal.countChanged],
         ["init_model"]) ∧
      st'.length = lnw.get_channel_objects.length ∧
      st'.Perm (lnw.get_channel_objects.map (channel_to_model lnw)) ∧
      st'.Pairwise (fun a b => chan_sort_key a ≤ chan_sort_key b ∧
        (rowStateCode a = rowStateCode b → (rowIsBackup a → rowIsBackup b))) := by
  refine ⟨List.insertionSort score_le (lnw.get_channel_objects.map (channel_to_model lnw)),
    init_model_some w lnw st hlnw, ?_, List.perm_insertionSort score_le _,
    sorted_models_pairwise lnw lnw.get_channel_objects⟩
  rw [(List.perm_insertionSort score_le _).length_eq, List.length_map]

/-- C4 amended, witnessed at the two-channel wallet of the counterexample. -/
theorem C4_amended_witness :
    c4_wallet.lnworker = some c4_lnworker ∧
    ∃ st' : List Row,
      init_model c4_wallet [] = Except.ok
        (st',
         [Signal.modelReset, Signal.rowsInserted 0 ((st'.length : Int) - 1),
          Signal.countChanged],
         ["init_model"]) ∧
      st'.length = c4_lnworker.get_channel_objects.length ∧
      st'.Perm (c4_lnworker.get_channel_objects.map (channel_to_model c4_lnworker)) ∧
      st'.Pairwise (fun a b => chan_sort_key a ≤ chan_sort_key b ∧
        (rowStateCode a = rowStateCode b → (rowIsBackup a → rowIsBackup b))) :=
  ⟨rfl, C4_amended c4_wallet c4_lnworker [] rfl⟩

/-- C5: when some row's cid matches the updated channel, `on_channel_updated`
replaces exactly that row by the freshly recomputed `channel_to_model` row
(all fields, since the key sets coincide and `dict.update` then replaces
every value), leaves the length and every other row (position and fields)
unchanged, and emits exactly a single-row `dataChanged` plus the derived
`numOpenChannelsChanged`. -/
theorem C5_update_in_place (w : Wallet) (lnw : Lnworker) (st : List Row)
    (ch : Channel) (i : Nat) (row : Row)
    (hlnw : w.lnworker = some lnw) (hWF : RowsWF st)
    (hfind : find_cid_row st ch.channel_id = Except.ok (some (i, row))) :
    on_channel_updated w st ch = Except.ok
      (st.set i (channel_to_model lnw ch),
       [Signal.dataChanged i, Signal.numOpenChannelsChanged],
       ["updating our channel " ++ ch.short_id_for_GUI]) ∧
    (st.set i (channel_to_model lnw ch)).length = st.length ∧
    (∀ j, j ≠ i → (st.set i (channel_to_model lnw ch))[j]? = st[j]?) := by
  have hkeys := hWF row
    (List.getElem?_mem (find_cid_row_found st ch.channel_id i row hfind).1)
  refine ⟨on_channel_updated_found w lnw st ch i row hlnw hkeys hfind,
    List.length_set st i _, ?_⟩
  intro j hj
  exact List.getElem?_set_ne (Ne.symm hj)

/-- C5, witnessed: updating the one-row demo state with the same channel in
a new domain state rewrites row 0 wholesale. -/
theorem C5_witness :
    find_cid_row demo_state demo_channel_v2.channel_id =
      Except.ok (some (0, channel_to_model demo_lnworker demo_channel)) ∧
    (on_channel_updated demo_wallet demo_state demo_channel_v2 = Except.ok
      (demo_state.set 0 (channel_to_model demo_lnworker demo_channel_v2),
       [Signal.dataChanged 0, Signal.numOpenChannelsChanged],
       ["updating our channel " ++ demo_channel_v2.short_id_for_GUI]) ∧
     (demo_state.set 0 (channel_to_model demo_lnworker demo_channel_v2)).length
        = demo_state.length ∧
     (∀ j, j ≠ 0 →
        (demo_state.set 0 (channel_to_model demo_lnworker demo_channel_v2))[j]?
          = demo_state[j]?)) := by
  have hwf : RowsWF demo_state := by
    show ∀ r ∈ demo_state, r.map Prod.fst = MODEL_KEYS
    decide
  exact ⟨rfl, C5_update_in_place demo_wallet demo_lnworker demo_state
    demo_channel_v2 0 (channel_to_model demo_lnworker demo_channel) rfl hwf rfl⟩

/-- C6: when the cid resolves in the domain collection, `new_channel`
prepends exactly the mapped row (pre-existing rows shifted by one,
otherwise unchanged) and emits rows-inserted at position 0 plus a count
change; when the cid does not resolve, the list is unchanged and no
notification is emitted (only the entry debug log). -/
theorem C6_insert_prepends (w : Wallet) (lnw : Lnworker) (st : List Row)
    (cid : String) (hlnw : w.lnworker = some lnw) :
    (∀ ch, lnw.channels.find? (fun c => cid == c.channel_id) = some ch →
        new_channel w st cid = Except.ok
          (channel_to_model lnw ch :: st,
           [Signal.rowsInserted 0 0, Signal.countChanged],
           ["new channel with cid " ++ cid, "item"]) ∧
        (channel_to_model lnw ch :: st).length = st.length + 1 ∧
        (∀ j, (channel_to_model lnw ch :: st)[j + 1]? = st[j]?)) ∧
    (lnw.channels.find? (fun c => cid == c.channel_id) = none →
        new_channel w st cid = Except.ok (st, [], ["new channel with cid " ++ cid])) := by
  constructor
  · intro ch hfind
    refine ⟨new_channel_found w lnw st cid ch hlnw hfind, rfl, ?_⟩
    intro j
    simp
  · intro hfind
    exact new_channel_notfound w lnw st cid hlnw hfind

/-- C6, witnessed: inserting the domain-present cid "aa" prepends its row;
inserting the domain-absent cid "zz" is a no-op without signals. -/
theorem C6_witness :
    demo_lnworker.channels.find? (fun c => "aa" == c.channel_id) = some demo_channel ∧
    new_channel demo_wallet demo_state "aa" = Except.ok
      (channel_to_model demo_lnworker demo_channel :: demo_state,
       [Signal.rowsInserted 0 0, Signal.countChanged],
       ["new channel with cid aa", "item"]) ∧
    demo_lnworker.channels.find? (fun c => "zz" == c.channel_id) = none ∧
    new_channel demo_wallet demo_state "zz" = Except.ok
      (demo_state, [], ["new channel with cid zz"]) :=
  ⟨rfl,
   ((C6_insert_prepends demo_wallet demo_lnworker demo_state "aa" rfl).1
      demo_channel rfl).1,
   rfl,
   (C6_insert_prepends demo_wallet demo_lnworker demo_state "zz" rfl).2 rfl⟩

/-- C7: when some row's cid matches, `remove_channel` deletes exactly that
row — the result is the original list with index i removed, the earlier rows
at their positions and the later rows shifted down by one — and emits
rows-removed plus a count change; when no row matches, the list is
unchanged and no removal or count notification is emitted. -/
theorem C7_remove_exact (st : List Row) (cid : String) :
    (∀ i row, find_cid_row st cid = Except.ok (some (i, row)) →
        remove_channel st cid = Except.ok
          (st.eraseIdx i,
           [Signal.rowsRemoved i i, Signal.countChanged],
           ["remove channel with cid " ++ cid, cid]) ∧
        i < st.length ∧
        (st.eraseIdx i).length = st.length - 1 ∧
        (∀ j, j < i → (st.eraseIdx i)[j]? = st[j]?) ∧
        (∀ j, i ≤ j → (st.eraseIdx i)[j]? = st[j + 1]?)) ∧
    (find_cid_row st cid = Except.ok none →
        remove_channel st cid = Except.ok (st, [], ["remove channel with cid " ++ cid])) := by
  constructor
  · intro i row hfind
    have hget := (find_cid_row_found st cid i row hfind).1
    have hlt : i < st.length := by
      by_contra hc
      push_neg at hc
      rw [List.getElem?_eq_none hc] at hget
      exact absurd hget (by simp)
    refine ⟨remove_channel_found st cid i row hfind, hlt, ?_, ?_, ?_⟩
    · rw [List.length_eraseIdx, if_pos hlt]
    · intro j hj; exact List.getElem?_eraseIdx_of_lt st i j hj
    · intro j hj; exact List.getElem?_eraseIdx_of_ge st i j hj
  · intro hfind
    exact remove_channel_notfound st cid hfind

/-- C7, witnessed: removing the present cid "aa" erases row 0; removing the
absent cid "zz" changes nothing and emits nothing. -/
theorem C7_witness :
    find_cid_row demo_state "aa" =
      Except.ok (some (0, channel_to_model demo_lnworker demo_channel)) ∧
    remove_channel demo_state "aa" = Except.ok
      (demo_state.eraseIdx 0,
       [Signal.rowsRemoved 0 0, Signal.countChanged],
       ["remove channel with cid aa", "aa"]) ∧
    find_cid_row demo_state "zz" = Except.ok none ∧
    remove_channel demo_state "zz" = Except.ok
      (demo_state, [], ["remove channel with cid zz"]) :=
  ⟨rfl,
   ((C7_remove_exact demo_state "aa").1 0
      (channel_to_model demo_lnworker demo_channel) rfl).1,
   rfl,
   (C7_remove_exact demo_state "zz").2 rfl⟩

/-- C8: at every reachable adapter state, the derived `numOpenChannels`
count equals the number of rows whose stored state code equals the open
state constant. -/
theorem C8_open_count_reachable (w : Wallet) (st : List Row)
    (h : Reachable w st) :
    numOpenChannels st = Except.ok (st.countP
      (fun r => List.lookup "state_code" r == some (Value.int ChannelState_OPEN))) :=
  numOpenChannels_WF st (reachable_WF w st h)

/-- C8, witnessed on the reachable one-rebuild state. -/
theorem C8_witness :
    numOpenChannels c3_state0 = Except.ok (c3_state0.countP
      (fun r => List.lookup "state_code" r == some (Value.int ChannelState_OPEN))) :=
  C8_open_count_reachable demo_wallet c3_state0
    (Relation.ReflTransGen.single (AStep.rebuild demo_init_eq))

/-- C9: with no Lightning engine, rebuild leaves the row list exactly as it
was, emits no reset, insert or count-change notification, and logs the
warning. -/
theorem C9_init_model_no_engine (w : Wallet) (st : List Row)
    (h : w.lnworker = none) :
    init_model w st = Except.ok (st, [], ["init_model", "lnworker should be defined"]) :=
  init_model_none w st h

/-- C9, witnessed on a wallet without an engine and a non-empty prior
state. -/
theorem C9_witness :
    no_lnworker_wallet.lnworker = none ∧
    init_model no_lnworker_wallet demo_state =
      Except.ok (demo_state, [], ["init_model", "lnworker should be defined"]) :=
  ⟨rfl, C9_init_model_no_engine no_lnworker_wallet demo_state rfl⟩

/-- C10: a backup channel's row stores the empty (zero) amount for
spendable, receivable, local-balance and remote-balance and copies the
domain `is_imported` flag; a non-backup channel's row always stores
`is_imported = false`. -/
theorem C10_backup_fields (lnw : Lnworker) (lnc : Channel) :
    (lnc.is_backup = true →
      List.lookup "can_send" (channel_to_model lnw lnc) = some (Value.amount QEAmount.mkEmpty) ∧
      List.lookup "can_receive" (channel_to_model lnw lnc) = some (Value.amount QEAmount.mkEmpty) ∧
      List.lookup "local_capacity" (channel_to_model lnw lnc) = some (Value.amount QEAmount.mkEmpty) ∧
      List.lookup "remote_capacity" (channel_to_model lnw lnc) = some (Value.amount QEAmount.mkEmpty) ∧
      List.lookup "is_imported" (channel_to_model lnw lnc) = some (Value.bool lnc.is_imported)) ∧
    (lnc.is_backup = false →
      List.lookup "is_imported" (channel_to_model lnw lnc) = some (Value.bool false)) := by
  constructor
  · intro hb
    refine ⟨?_, ?_, ?_, ?_, ?_⟩ <;> simp [channel_to_model, hb, List.lookup]
  · intro hb
    simp [channel_to_model, hb, List.lookup]

/-- C10, witnessed on a backup channel with the imported flag set and on a
non-backup channel. -/
theorem C10_witness :
    c10_chanB.is_backup = true ∧ demo_channel.is_backup = false ∧
    List.lookup "can_send" (channel_to_model demo_lnworker c10_chanB)
      = some (Value.amount QEAmount.mkEmpty) ∧
    List.lookup "is_imported" (channel_to_model demo_lnworker c10_chanB)
      = some (Value.bool true) ∧
    List.lookup "is_imported" (channel_to_model demo_lnworker demo_channel)
      = some (Value.bool false) :=
  ⟨rfl, rfl,
   ((C10_backup_fields demo_lnworker c10_chanB).1 rfl).1,
   ((C10_backup_fields demo_lnworker c10_chanB).1 rfl).2.2.2.2,
   (C10_backup_fields demo_lnworker demo_channel).2 rfl⟩
